import Mathlib

/-!
Verification development for the repository's two maintenance scripts
(`audit-cheatsheets.ts`, `audit-icons.ts`) and the repository-manager UI
component.  JavaScript strings are embedded as Lean `String`s, the regexes
of the scripts (which are all sequences of literal parts separated by `.*`,
or alternations of literals) as lists of literal parts, and the filesystem
as an explicit directory listing together with a list of performed
filesystem operations.
-/

namespace Raycast

/-- Characters matched by the JavaScript regex class `\s`
(the ASCII portion, which is all the source's inputs use). -/
def jsWhitespace (c : Char) : Bool :=
  c = ' ' || c = '\t' || c = '\n' || c = '\r' || c = '\x0b' || c = '\x0c'

/-- Characters matched by the JavaScript regex `.` without the `s` flag:
everything except the four line terminators. -/
def jsDot (c : Char) : Bool :=
  !(c = '\n' || c = '\r' || c = '\u2028' || c = '\u2029')

/-- JavaScript `String.prototype.trim` on the character list. -/
def trimChars (cs : List Char) : List Char :=
  ((cs.dropWhile jsWhitespace).reverse.dropWhile jsWhitespace).reverse

/-- JavaScript `s.trim()`. -/
def jsTrim (s : String) : String :=
  String.mk (trimChars s.data)

/-- JavaScript `s.endsWith t`. -/
def jsEndsWith (s t : String) : Bool :=
  t.data.isSuffixOf s.data

/-- JavaScript `s.startsWith t`. -/
def jsStartsWith (s t : String) : Bool :=
  t.data.isPrefixOf s.data

/-- JavaScript `hay.includes needle` for strings (substring occurrence). -/
def subOccurs (needle : List Char) (hay : List Char) : Bool :=
  needle.isPrefixOf hay ||
    match hay with
    | [] => false
    | _ :: rest => subOccurs needle rest

/-- One JavaScript regex of the shape `/p₁.*p₂.*…*pₙ/`: a list of literal
parts, consecutive parts separated by `.*`. -/
def JsParts := List (List Char)

/-- Match the parts `ps` against `s` where the first part has to begin
inside the leading run of `.`-matchable characters of `s` (the regex `.*`
between two literal parts cannot cross a line terminator).  `fuel` bounds
the recursion; it is always called with fuel larger than the number of
steps possible, so the zero case is unreachable. -/
def gapSearch : Nat → List (List Char) → List Char → Bool
  | 0, _, _ => false
  | _ + 1, [], _ => true
  | fuel + 1, p :: ps, s =>
    (p.isPrefixOf s && gapSearch fuel ps (s.drop p.length)) ||
      (match s with
       | [] => false
       | c :: rest => jsDot c && gapSearch fuel (p :: ps) rest)

/-- Search for literal part `p` at every position of `s` (the regex is
unanchored, so the first literal may start anywhere), then match the
remaining parts with `.*` gaps. -/
def searchAt (p : List Char) (ps : List (List Char)) (s : List Char) : Bool :=
  (p.isPrefixOf s && gapSearch (s.length + ps.length + 1) ps (s.drop p.length)) ||
    (match s with
     | [] => false
     | _ :: rest => searchAt p ps rest)

/-- `regex.test s` for a `.*`-separated literal-parts regex. -/
def partsMatch (parts : List (List Char)) (s : List Char) : Bool :=
  match parts with
  | [] => true
  | p :: ps => searchAt p ps s

/-- `pattern.test s` for one of the script's case-insensitive version
patterns (`/tech.*N\./i`): both sides are lowercased. -/
def patTest (parts : List String) (s : String) : Bool :=
  partsMatch (parts.map (fun p => p.data.map Char.toLower)) (s.data.map Char.toLower)

/-- Node's `path.basename(p, '.md')`: the last path segment, with a
trailing `.md` removed unless the segment is exactly `.md`. -/
def basenameMd (p : String) : String :=
  let seg := (p.data.reverse.takeWhile (fun c => c ≠ '/')).reverse
  let ext := ".md".data
  if ext.isSuffixOf seg && seg ≠ ext then String.mk (seg.take (seg.length - 3))
  else String.mk seg

/-- The static `OUTDATED_TECHS` set of `audit-cheatsheets.ts` (the source
lists `nodemon` twice; `Set` membership makes the duplicate harmless). -/
def OUTDATED_TECHS : List String :=
  ["angularjs", "bower", "grunt", "gulp3", "tslint", "babel6", "jasmine1",
   "mocha1", "karma", "browserify", "systemjs", "jspm", "browser-sync",
   "live-reload", "nodemon", "pm2", "forever", "supervisor", "nodemon",
   "grunt-contrib", "gulp-contrib", "yeoman", "bower-installer", "component",
   "duo", "jam", "volo", "ender", "spm", "componentjs", "jamjs", "volojs",
   "enderjs", "spmjs"]

/-- The static `OUTDATED_PATTERNS` list of `audit-cheatsheets.ts`, each
regex `/a.*b/i` transcribed as its list of literal parts. -/
def OUTDATED_PATTERNS : List (List String) :=
  [["angularjs", "1."], ["react", "0."], ["vue", "1."], ["ember", "1."],
   ["backbone", "0."], ["jquery", "1."], ["bootstrap", "2."],
   ["bootstrap", "3."], ["node", "0."], ["node", "4."], ["node", "6."],
   ["node", "8."], ["node", "10."], ["python", "2."], ["ruby", "1."],
   ["ruby", "2."], ["php", "5."], ["php", "7."], ["mysql", "4."],
   ["mysql", "5."], ["postgresql", "8."], ["postgresql", "9."],
   ["mongodb", "2."], ["mongodb", "3."], ["redis", "2."], ["redis", "3."],
   ["docker", "1."], ["kubernetes", "1."], ["aws", "cli", "1."],
   ["terraform", "0."], ["ansible", "1."], ["chef", "11."], ["puppet", "3."],
   ["vagrant", "1."], ["virtualbox", "4."], ["vmware", "5."],
   ["hyper-v", "1."], ["xen", "4."], ["kvm", "1."], ["lxc", "1."],
   ["lxd", "2."], ["systemd", "200."], ["upstart", "0."], ["sysvinit", "0."],
   ["runit", "0."], ["s6", "0."], ["daemontools", "0."], ["supervisor", "3."],
   ["monit", "5."], ["god", "0."], ["bluepill", "0."], ["eye", "0."],
   ["foreman", "0."], ["honcho", "0."], ["circus", "0."],
   ["supervisord", "3."], ["runit", "0."], ["s6", "0."],
   ["daemontools", "0."], ["supervisor", "3."], ["monit", "5."],
   ["god", "0."], ["bluepill", "0."], ["eye", "0."], ["foreman", "0."],
   ["honcho", "0."], ["circus", "0."]]

/-- The local `outdatedContentPatterns` list inside `isOutdated` (tested
against the content only). -/
def outdatedContentPatterns : List (List String) :=
  [["angularjs", "1."], ["react", "0."], ["vue", "1."], ["ember", "1."],
   ["backbone", "0."], ["jquery", "1."], ["bootstrap", "2."],
   ["bootstrap", "3."], ["node", "0."], ["node", "4."], ["node", "6."],
   ["node", "8."], ["node", "10."], ["python", "2."], ["ruby", "1."],
   ["ruby", "2."], ["php", "5."], ["php", "7."], ["mysql", "4."],
   ["mysql", "5."], ["postgresql", "8."], ["postgresql", "9."],
   ["mongodb", "2."], ["mongodb", "3."], ["redis", "2."], ["redis", "3."],
   ["docker", "1."], ["kubernetes", "1."], ["aws", "cli", "1."],
   ["terraform", "0."], ["ansible", "1."], ["chef", "11."], ["puppet", "3."],
   ["vagrant", "1."], ["virtualbox", "4."], ["vmware", "5."],
   ["hyper-v", "1."], ["xen", "4."], ["kvm", "1."], ["lxc", "1."],
   ["lxd", "2."], ["systemd", "200."], ["upstart", "0."], ["sysvinit", "0."],
   ["runit", "0."], ["s6", "0."], ["daemontools", "0."], ["supervisor", "3."],
   ["monit", "5."], ["god", "0."], ["bluepill", "0."], ["eye", "0."],
   ["foreman", "0."], ["honcho", "0."], ["circus", "0."]]

/-- `isOutdated` of `audit-cheatsheets.ts`: outdated-tech set on the
basename, then the version patterns against filename and content, then the
content-only pattern list. -/
def isOutdated (filename content : String) : Bool :=
  let baseName := basenameMd filename
  if OUTDATED_TECHS.contains baseName then true
  else if OUTDATED_PATTERNS.any
      (fun pattern => patTest pattern filename || patTest pattern content) then true
  else if outdatedContentPatterns.any (fun pattern => patTest pattern content) then true
  else false

/-- The classifier as the specification states it: basename in the static
set, or some static version pattern matching the filename or the content. -/
def isOutdatedSpec (filename content : String) : Bool :=
  OUTDATED_TECHS.contains (basenameMd filename) ||
    OUTDATED_PATTERNS.any
      (fun pattern => patTest pattern filename || patTest pattern content)

theorem contentPatterns_sub : ∀ p ∈ outdatedContentPatterns, p ∈ OUTDATED_PATTERNS := by
  decide

theorem contentAny_imp (filename content : String)
    (h : outdatedContentPatterns.any (fun pattern => patTest pattern content) = true) :
    OUTDATED_PATTERNS.any
      (fun pattern => patTest pattern filename || patTest pattern content) = true := by
  rcases List.any_eq_true.mp h with ⟨p, hp, hm⟩
  exact List.any_eq_true.mpr ⟨p, contentPatterns_sub p hp, by simp [hm]⟩

/-- Claim C1: for every filename and file content, `isOutdated` returns
true if and only if the filename's basename (without the `.md` extension)
is a member of the static `OUTDATED_TECHS` set, or at least one pattern in
the static `OUTDATED_PATTERNS` list matches the filename or the content,
and no other input yields true (the trailing content-only pattern list is
a subset of `OUTDATED_PATTERNS`, so it adds nothing). -/
theorem isOutdated_matches_static_tables (filename content : String) :
    isOutdated filename content = isOutdatedSpec filename content := by
  simp only [isOutdated, isOutdatedSpec]
  cases h2 : OUTDATED_PATTERNS.any
      (fun pattern => patTest pattern filename || patTest pattern content)
  · have h3 : outdatedContentPatterns.any (fun pattern => patTest pattern content) = false := by
      cases h3 : outdatedContentPatterns.any (fun pattern => patTest pattern content)
      · rfl
      · exact absurd (contentAny_imp filename content h3)
          (by rw [h2]; exact Bool.false_ne_true)
    cases h1 : OUTDATED_TECHS.contains (basenameMd filename) <;> simp [h1, h2, h3]
  · cases h1 : OUTDATED_TECHS.contains (basenameMd filename) <;> simp [h1, h2]

/-- Split a character list at every occurrence of `sep` (like
`String.prototype.split` with a one-character separator). -/
def splitOnChar (sep : Char) : List Char → List (List Char)
  | [] => [[]]
  | c :: rest =>
    let r := splitOnChar sep rest
    if c = sep then [] :: r
    else
      match r with
      | [] => [[c]]
      | g :: gs => (c :: g) :: gs

/-- The front-matter fields the scripts read (`title`, `tech`, `version`,
`status`, `lastReviewed`).  The gray-matter library returns a data object;
other keys are never read by the scripts and are elided here. -/
structure FrontMatter where
  title : Option String
  tech : Option String
  version : Option String
  status : Option String
  lastReviewed : Option String
  deriving DecidableEq

/-- The front-matter object with no fields set (no front-matter block). -/
def FrontMatter.empty : FrontMatter := ⟨none, none, none, none, none⟩

/-- Parse one `key: value` front-matter line. -/
def parseKV (line : List Char) : Option (String × String) :=
  let key := line.takeWhile (fun c => c ≠ ':')
  match line.drop key.length with
  | ':' :: v => some (jsTrim (String.mk key), jsTrim (String.mk v))
  | _ => none

/-- Record one parsed `key: value` pair in the front-matter object. -/
def setField (fm : FrontMatter) (kv : String × String) : FrontMatter :=
  if kv.1 = "title" then { fm with title := some kv.2 }
  else if kv.1 = "tech" then { fm with tech := some kv.2 }
  else if kv.1 = "version" then { fm with version := some kv.2 }
  else if kv.1 = "status" then { fm with status := some kv.2 }
  else if kv.1 = "lastReviewed" then { fm with lastReviewed := some kv.2 }
  else fm

/-- Models the gray-matter library's `matter(content)` for simple
`key: value` YAML front matter delimited by `---` lines: the parsed data
object and the body after the closing delimiter.  Content without a
leading `---` line (or without a closing one) has no front matter. -/
def matterParse (content : String) : FrontMatter × String :=
  match splitOnChar '\n' content.data with
  | [] => (FrontMatter.empty, content)
  | first :: rest =>
    if first = "---".data then
      match rest.findIdx? (fun l => l = "---".data) with
      | some i =>
        let fmLines := rest.take i
        let body := rest.drop (i + 1)
        (fmLines.foldl
          (fun fm l =>
            match parseKV l with
            | some kv => setField fm kv
            | none => fm) FrontMatter.empty,
         String.intercalate "\n" (body.map String.mk))
      | none => (FrontMatter.empty, content)
    else (FrontMatter.empty, content)

/-- Models `matter.stringify(body, data)`: a front-matter block followed by
the body (field order simplified; no theorem inspects this text). -/
def matterStringify (body : String) (fm : FrontMatter) : String :=
  let field := fun (k : String) (v : Option String) =>
    match v with
    | some s => k ++ ": " ++ s ++ "\n"
    | none => ""
  "---\n" ++ field "title" fm.title ++ field "tech" fm.tech ++
    field "version" fm.version ++ field "status" fm.status ++
    field "lastReviewed" fm.lastReviewed ++ "---\n" ++ body

/-- JavaScript truthiness of an optional string: `undefined` and the empty
string are falsy. -/
def optTruthy : Option String → Bool
  | some s => s ≠ ""
  | none => false

/-- The trimmed capture of `content.match(/^#\s+(.+)$/m)`: scan every line
start for `#`, require at least one whitespace character (which in a
JavaScript regex may cross line terminators), and capture the rest of the
line.  When the whitespace run reaches the end of the string the engine
backtracks and the capture is whitespace, which trims to `""`. -/
def headingScan : List Char → Bool → Option String
  | [], _ => none
  | c :: rest, atLineStart =>
    if atLineStart && c = '#' then
      let w := rest.takeWhile jsWhitespace
      let afterW := rest.drop w.length
      if w.isEmpty then headingScan rest (!jsDot c)
      else
        match afterW with
        | [] =>
          if (w.drop 1).any jsDot then some "" else headingScan rest (!jsDot c)
        | _ => some (jsTrim (String.mk (afterW.takeWhile jsDot)))
    else headingScan rest (!jsDot c)

/-- Uppercase the first character of a word (JavaScript
`word.charAt(0).toUpperCase() + word.slice(1)`). -/
def capitalizeWord (w : List Char) : List Char :=
  match w with
  | [] => []
  | c :: rest => c.toUpper :: rest

/-- The filename fallback of `generateTitle`: split the basename on `-`,
capitalize each word and join with spaces. -/
def titleFromFilename (baseName : String) : String :=
  String.intercalate " "
    (((splitOnChar '-' baseName.data).map capitalizeWord).map String.mk)

/-- `generateTitle` of `audit-cheatsheets.ts`: front-matter title if
truthy, else the first level-1 heading of the raw content, else a title
derived from the filename. -/
def generateTitle (filename content : String) : String :=
  let baseName := basenameMd filename
  let parsed := matterParse content
  if optTruthy parsed.1.title then parsed.1.title.getD ""
  else
    match headingScan content.data true with
    | some h => h
    | none => titleFromFilename baseName

/-- Characters of the regex class `[0-9.]`. -/
def versionChar (c : Char) : Bool := c.isDigit || c = '.'

/-- Characters of the regex class `[:\s]`. -/
def versionSep (c : Char) : Bool := c = ':' || jsWhitespace c

/-- The capture of `filename.match(/@([0-9.]+)/)`: the first `@` followed
by at least one digit or dot, capturing the maximal run. -/
def atVersion : List Char → Option String
  | [] => none
  | c :: rest =>
    if c = '@' then
      let run := rest.takeWhile versionChar
      if run.isEmpty then atVersion rest else some (String.mk run)
    else atVersion rest

/-- The capture of `content.match(/version[:\s]+([0-9.]+)/i)`; expects the
already-lowercased character list. -/
def contentVersionScan : List Char → Option String
  | [] => none
  | c :: rest =>
    let seps := ((c :: rest).drop 7).takeWhile versionSep
    let digits := (((c :: rest).drop 7).drop seps.length).takeWhile versionChar
    if "version".data.isPrefixOf (c :: rest) && !seps.isEmpty && !digits.isEmpty then
      some (String.mk digits)
    else contentVersionScan rest

/-- `extractVersion` of `audit-cheatsheets.ts`: a version from the
filename's `@` suffix, else from a `version:` mention in the content. -/
def extractVersion (filename content : String) : Option String :=
  match atVersion filename.data with
  | some v => some v
  | none => contentVersionScan (content.data.map Char.toLower)

/-- The `techMap` lookup table inside `extractTechFromFilename`. -/
def techMap : List (String × String) :=
  [("js", "javascript"), ("ts", "typescript"), ("py", "python"),
   ("rb", "ruby"), ("go", "golang"), ("rs", "rust"), ("kt", "kotlin"),
   ("typescript", "typescript"), ("javascript", "javascript"),
   ("python", "python"), ("ruby", "ruby"), ("php", "php"),
   ("golang", "golang"), ("rust", "rust"), ("cpp", "cpp"), ("c", "c"),
   ("java", "java"), ("kotlin", "kotlin"), ("swift", "swift"),
   ("dart", "dart"), ("scala", "scala"), ("clojure", "clojure"),
   ("haskell", "haskell"), ("ocaml", "ocaml"), ("fsharp", "fsharp"),
   ("erlang", "erlang"), ("elixir", "elixir"), ("elm", "elm"),
   ("purescript", "purescript"), ("reason", "reason"),
   ("rescript", "rescript"), ("coffeescript", "coffeescript")]

/-- `extractTechFromFilename` of `audit-cheatsheets.ts`: the basename up
to a version `@`, normalised through `techMap`. -/
def extractTechFromFilename (filename : String) : String :=
  let baseName := basenameMd filename
  if baseName.data.contains '@' then
    String.mk (baseName.data.takeWhile (fun c => c ≠ '@'))
  else
    match techMap.lookup baseName with
    | some t => t
    | none => baseName

/-- The `status` field of a cheatsheet metadata record. -/
inductive Status where
  | active
  | archived
  deriving DecidableEq

/-- A cheatsheet metadata record (`CheatsheetMetadata` of the scripts). -/
structure CheatsheetMetadata where
  path : String
  title : String
  tech : String
  version : Option String
  status : Status
  lastReviewed : String
  deriving DecidableEq

/-- The metadata record `auditCheatsheets` builds for one file before
classification (`status` starts as `active`; `lastReviewed` is the run
date `new Date().toISOString().split('T')[0]`, passed in as `today`). -/
def mkMetadata (file content today : String) : CheatsheetMetadata :=
  { path := file
    title := generateTitle file content
    tech := extractTechFromFilename file
    version := extractVersion file content
    status := Status.active
    lastReviewed := today }

/-- Lexicographic comparison of character lists by code point; models the
UTF-16 code-unit comparison behind the JavaScript default `sort()`
comparator (the two agree on every identifier these scripts sort). -/
def lexLe : List Char → List Char → Bool
  | [], _ => true
  | _ :: _, [] => false
  | a :: as, b :: bs =>
    if a.toNat < b.toNat then true
    else if b.toNat < a.toNat then false
    else lexLe as bs

/-- String comparison for the JavaScript default sort order. -/
def strLe (a b : String) : Bool := lexLe a.data b.data

/-- Insert into a sorted list, keeping it sorted. -/
def sortedInsert (x : String) : List String → List String
  | [] => [x]
  | y :: ys => if strLe x y then x :: y :: ys else y :: sortedInsert x ys

/-- JavaScript `array.sort()` on an array of strings. -/
def sortStrings : List String → List String
  | [] => []
  | x :: xs => sortedInsert x (sortStrings xs)

/-- Ascending order under the JavaScript default string comparator. -/
def SortedStr (l : List String) : Prop := l.Pairwise (fun a b => strLe a b = true)

theorem lexLe_total : ∀ as bs : List Char, lexLe as bs = true ∨ lexLe bs as = true
  | [], _ => Or.inl rfl
  | _ :: _, [] => Or.inr rfl
  | a :: as, b :: bs => by
    simp only [lexLe]
    rcases Nat.lt_trichotomy a.toNat b.toNat with h | h | h
    · left; simp [h]
    · have h2 : ¬ a.toNat < b.toNat := by omega
      have h3 : ¬ b.toNat < a.toNat := by omega
      simpa [h2, h3] using lexLe_total as bs
    · right; simp [h]

theorem lexLe_trans : ∀ as bs cs : List Char,
    lexLe as bs = true → lexLe bs cs = true → lexLe as cs = true
  | [], _, _, _, _ => rfl
  | _ :: _, [], _, h1, _ => by simp [lexLe] at h1
  | _ :: _, _ :: _, [], _, h2 => by simp [lexLe] at h2
  | a :: as, b :: bs, c :: cs, h1, h2 => by
    simp only [lexLe] at h1 h2 ⊢
    by_cases hab : a.toNat < b.toNat
    · by_cases hbc : b.toNat < c.toNat
      · have hac : a.toNat < c.toNat := by omega
        simp [hac]
      · by_cases hcb : c.toNat < b.toNat
        · simp [hbc, hcb] at h2
        · have hac : a.toNat < c.toNat := by omega
          simp [hac]
    · by_cases hba : b.toNat < a.toNat
      · simp [hab, hba] at h1
      · by_cases hbc : b.toNat < c.toNat
        · have hac : a.toNat < c.toNat := by omega
          simp [hac]
        · by_cases hcb : c.toNat < b.toNat
          · simp [hbc, hcb] at h2
          · have hnac : ¬ a.toNat < c.toNat := by omega
            have hnca : ¬ c.toNat < a.toNat := by omega
            simp only [hab, hba, if_neg, ite_false] at h1
            simp only [hbc, hcb, if_neg, ite_false] at h2
            simp only [hnac, hnca, if_neg, ite_false]
            exact lexLe_trans as bs cs (by simpa [hab, hba] using h1)
              (by simpa [hbc, hcb] using h2)

theorem strLe_total (a b : String) : strLe a b = true ∨ strLe b a = true :=
  lexLe_total a.data b.data

theorem strLe_trans {a b c : String} (h1 : strLe a b = true) (h2 : strLe b c = true) :
    strLe a c = true :=
  lexLe_trans a.data b.data c.data h1 h2

theorem sortedInsert_perm (x : String) : ∀ l : List String, List.Perm (sortedInsert x l) (x :: l)
  | [] => List.Perm.refl _
  | y :: ys => by
    simp only [sortedInsert]
    by_cases h : strLe x y = true
    · simp [h]
    · simp only [h, if_false, ite_false]
      exact ((sortedInsert_perm x ys).cons y).trans (List.Perm.swap x y ys)

theorem mem_sortedInsert {z x : String} {l : List String} :
    z ∈ sortedInsert x l ↔ z = x ∨ z ∈ l := by
  rw [(sortedInsert_perm x l).mem_iff]
  simp

theorem sortedInsert_sorted (x : String) {l : List String} (h : SortedStr l) :
    SortedStr (sortedInsert x l) := by
  induction l with
  | nil => simp [sortedInsert, SortedStr]
  | cons y ys ih =>
    rcases List.pairwise_cons.mp h with ⟨hy, hys⟩
    simp only [sortedInsert]
    by_cases hxy : strLe x y = true
    · simp only [hxy, if_true, ite_true]
      refine List.pairwise_cons.mpr ⟨?_, h⟩
      intro z hz
      rcases List.mem_cons.mp hz with rfl | hz
      · exact hxy
      · exact strLe_trans hxy (hy z hz)
    · have hyx : strLe y x = true := (strLe_total x y).resolve_left hxy
      simp only [hxy, if_false, ite_false]
      refine List.pairwise_cons.mpr ⟨?_, ih hys⟩
      intro z hz
      rcases mem_sortedInsert.mp hz with rfl | hz
      · exact hyx
      · exact hy z hz

theorem sortStrings_perm : ∀ l : List String, List.Perm (sortStrings l) l
  | [] => List.Perm.refl _
  | x :: xs =>
    (sortedInsert_perm x (sortStrings xs)).trans ((sortStrings_perm xs).cons x)

theorem sortStrings_sorted : ∀ l : List String, SortedStr (sortStrings l)
  | [] => List.Pairwise.nil
  | x :: xs => sortedInsert_sorted x (sortStrings_sorted xs)

/-- A filesystem operation performed by a script (paths are relative to
the cheatsheets directory; directory creation and console output carry no
file content and are elided). -/
inductive FsOp where
  | read (file : String)
  | write (file : String) (content : String)
  | rename (src : String) (dst : String)
  deriving DecidableEq

/-- The existing file an operation touches (for a rename, the source). -/
def FsOp.touches : FsOp → String
  | .read f => f
  | .write f _ => f
  | .rename src _ => src

/-- `AuditResult` of `audit-cheatsheets.ts`. -/
structure AuditResult where
  kept : List CheatsheetMetadata
  updated : List CheatsheetMetadata
  archived : List CheatsheetMetadata
  deriving DecidableEq

/-- The front-matter string of a `status` value. -/
def Status.str : Status → String
  | .active => "active"
  | .archived => "archived"

/-- The `updatedData` object of the front-matter rewrite:
`{...parsed.data, title, tech, status, lastReviewed}` plus `version` only
when the freshly extracted version is truthy. -/
def updatedFrontMatter (parsedData : FrontMatter) (metadata : CheatsheetMetadata) :
    FrontMatter :=
  { parsedData with
    title := some metadata.title
    tech := some metadata.tech
    status := some metadata.status.str
    lastReviewed := some metadata.lastReviewed
    version := if optTruthy metadata.version then metadata.version else parsedData.version }

/-- The body of the `for (const file of files)` loop of `auditCheatsheets`:
read the file, build its metadata, then either archive it (move to
`_archive/`), rewrite incomplete front matter, or keep it as is. -/
def auditStep (readFile : String → String) (today : String)
    (acc : AuditResult × List FsOp) (file : String) : AuditResult × List FsOp :=
  let content := readFile file
  let metadata := mkMetadata file content today
  if isOutdated file content then
    ({ acc.1 with archived := acc.1.archived ++ [{ metadata with status := Status.archived }] },
     acc.2 ++ [FsOp.read file, FsOp.rename file ("_archive/" ++ file)])
  else
    let parsed := matterParse content
    if !optTruthy parsed.1.title || !optTruthy parsed.1.tech ||
        !optTruthy parsed.1.status || !optTruthy parsed.1.lastReviewed then
      ({ acc.1 with updated := acc.1.updated ++ [metadata] },
       acc.2 ++ [FsOp.read file,
         FsOp.write file (matterStringify parsed.2 (updatedFrontMatter parsed.1 metadata))])
    else
      ({ acc.1 with kept := acc.1.kept ++ [metadata] }, acc.2 ++ [FsOp.read file])

/-- The `readdirSync` filter of `auditCheatsheets`: Markdown files whose
names do not start with `_`. -/
def filterFiles (listing : List String) : List String :=
  listing.filter (fun file => jsEndsWith file ".md" && !jsStartsWith file "_")

/-- The empty `AuditResult` the run starts from. -/
def emptyAudit : AuditResult := ⟨[], [], []⟩

/-- `auditCheatsheets` over an explicit directory listing and file
contents: filter and sort the listing, then process each file in order,
also recording every filesystem operation performed. -/
def auditCheatsheets (listing : List String) (readFile : String → String)
    (today : String) : AuditResult × List FsOp :=
  (sortStrings (filterFiles listing)).foldl (auditStep readFile today) (emptyAudit, [])

/-- `generateIndex` of `audit-cheatsheets.ts`: the array written to
`index.json`, one object per kept or updated record. -/
def generateIndexData (result : AuditResult) : List CheatsheetMetadata :=
  (result.kept ++ result.updated).map
    (fun cheatsheet =>
      { path := cheatsheet.path
        title := cheatsheet.title
        tech := cheatsheet.tech
        version := cheatsheet.version
        status := cheatsheet.status
        lastReviewed := cheatsheet.lastReviewed })

/-- The audit loop over an already filtered and sorted file list. -/
def auditRun (rf : String → String) (td : String) (fs : List String) :
    AuditResult × List FsOp :=
  fs.foldl (auditStep rf td) (emptyAudit, [])

/-- The contribution of a single file: the loop body applied to the empty
accumulator. -/
def auditDelta (rf : String → String) (td : String) (file : String) :
    AuditResult × List FsOp :=
  auditStep rf td (emptyAudit, []) file

theorem auditStep_decomp (rf : String → String) (td : String)
    (acc : AuditResult × List FsOp) (file : String) :
    auditStep rf td acc file =
      (⟨acc.1.kept ++ (auditDelta rf td file).1.kept,
        acc.1.updated ++ (auditDelta rf td file).1.updated,
        acc.1.archived ++ (auditDelta rf td file).1.archived⟩,
       acc.2 ++ (auditDelta rf td file).2) := by
  obtain ⟨⟨k, u, a⟩, ops⟩ := acc
  simp only [auditStep, auditDelta, emptyAudit]
  cases h1 : isOutdated file (rf file)
  · cases h2 : (!optTruthy (matterParse (rf file)).1.title ||
        !optTruthy (matterParse (rf file)).1.tech ||
        !optTruthy (matterParse (rf file)).1.status ||
        !optTruthy (matterParse (rf file)).1.lastReviewed) <;>
      simp [h1, h2]
  · simp [h1]

theorem auditFold_decomp (rf : String → String) (td : String) :
    ∀ (fs : List String) (acc : AuditResult × List FsOp),
      fs.foldl (auditStep rf td) acc =
        (⟨acc.1.kept ++ (auditRun rf td fs).1.kept,
          acc.1.updated ++ (auditRun rf td fs).1.updated,
          acc.1.archived ++ (auditRun rf td fs).1.archived⟩,
         acc.2 ++ (auditRun rf td fs).2)
  | [], acc => by
    obtain ⟨⟨k, u, a⟩, ops⟩ := acc
    simp [auditRun, emptyAudit]
  | f :: fs, acc => by
    rw [List.foldl_cons]
    rw [auditFold_decomp rf td fs (auditStep rf td acc f)]
    have hcons : auditRun rf td (f :: fs) =
        (⟨(auditDelta rf td f).1.kept ++ (auditRun rf td fs).1.kept,
          (auditDelta rf td f).1.updated ++ (auditRun rf td fs).1.updated,
          (auditDelta rf td f).1.archived ++ (auditRun rf td fs).1.archived⟩,
         (auditDelta rf td f).2 ++ (auditRun rf td fs).2) := by
      show (fs.foldl (auditStep rf td) (auditStep rf td (emptyAudit, []) f)) = _
      rw [auditFold_decomp rf td fs (auditStep rf td (emptyAudit, []) f)]
      rfl
    rw [hcons, auditStep_decomp rf td acc f]
    simp [List.append_assoc]

theorem auditRun_cons (rf : String → String) (td : String) (f : String) (fs : List String) :
    auditRun rf td (f :: fs) =
      (⟨(auditDelta rf td f).1.kept ++ (auditRun rf td fs).1.kept,
        (auditDelta rf td f).1.updated ++ (auditRun rf td fs).1.updated,
        (auditDelta rf td f).1.archived ++ (auditRun rf td fs).1.archived⟩,
       (auditDelta rf td f).2 ++ (auditRun rf td fs).2) := by
  show (fs.foldl (auditStep rf td) (auditStep rf td (emptyAudit, []) f)) = _
  rw [auditFold_decomp rf td fs (auditStep rf td (emptyAudit, []) f)]
  rfl

/-- Each file is classified into exactly one of the three shapes: archived
(moved to `_archive/`), updated (front matter rewritten), or kept. -/
theorem auditDelta_shape (rf : String → String) (td : String) (file : String) :
    (isOutdated file (rf file) = true ∧
      auditDelta rf td file =
        (⟨[], [], [{ mkMetadata file (rf file) td with status := Status.archived }]⟩,
         [FsOp.read file, FsOp.rename file ("_archive/" ++ file)])) ∨
    (isOutdated file (rf file) = false ∧
      (auditDelta rf td file =
          (⟨[], [mkMetadata file (rf file) td], []⟩,
           [FsOp.read file,
            FsOp.write file (matterStringify (matterParse (rf file)).2
              (updatedFrontMatter (matterParse (rf file)).1
                (mkMetadata file (rf file) td)))]) ∨
        auditDelta rf td file =
          (⟨[mkMetadata file (rf file) td], [], []⟩, [FsOp.read file]))) := by
  cases h1 : isOutdated file (rf file)
  · right
    refine ⟨rfl, ?_⟩
    cases h2 : (!optTruthy (matterParse (rf file)).1.title ||
        !optTruthy (matterParse (rf file)).1.tech ||
        !optTruthy (matterParse (rf file)).1.status ||
        !optTruthy (matterParse (rf file)).1.lastReviewed)
    · right
      simp [auditDelta, auditStep, emptyAudit, h1, h2]
    · left
      simp [auditDelta, auditStep, emptyAudit, h1, h2]
  · left
    exact ⟨rfl, by simp [auditDelta, auditStep, emptyAudit, h1]⟩

/-- Every processed file lands in exactly one of the three result lists. -/
theorem auditRun_paths_perm (rf : String → String) (td : String) :
    ∀ fs : List String,
      List.Perm
        (((auditRun rf td fs).1.kept ++ (auditRun rf td fs).1.updated ++
            (auditRun rf td fs).1.archived).map CheatsheetMetadata.path)
        fs
  | [] => by simp [auditRun, emptyAudit]
  | f :: fs => by
    have ih := auditRun_paths_perm rf td fs
    rw [auditRun_cons]
    rcases auditDelta_shape rf td f with ⟨_, hd⟩ | ⟨_, hd | hd⟩ <;> rw [hd] <;>
      simp only [List.nil_append, List.singleton_append]
    · -- archived contribution
      refine (List.perm_middle.map CheatsheetMetadata.path).trans ?_
      simpa [mkMetadata] using ih.cons f
    · -- updated contribution
      refine ((List.perm_middle.append_right _).map CheatsheetMetadata.path).trans ?_
      simpa [mkMetadata] using ih.cons f
    · -- kept contribution
      simpa [mkMetadata] using ih.cons f

/-- The kept and updated lists together hold exactly the processed files
the classifier did not mark outdated. -/
theorem auditRun_active_paths_perm (rf : String → String) (td : String) :
    ∀ fs : List String,
      List.Perm
        (((auditRun rf td fs).1.kept ++ (auditRun rf td fs).1.updated).map
          CheatsheetMetadata.path)
        (fs.filter (fun f => !isOutdated f (rf f)))
  | [] => by simp [auditRun, emptyAudit]
  | f :: fs => by
    have ih := auditRun_active_paths_perm rf td fs
    rw [auditRun_cons]
    rcases auditDelta_shape rf td f with ⟨h1, hd⟩ | ⟨h1, hd | hd⟩ <;> rw [hd] <;>
      simp only [List.nil_append, List.singleton_append, List.filter_cons, h1,
        Bool.not_true, Bool.not_false, if_true, if_false, ite_true, ite_false]
    · exact ih
    · refine (List.perm_middle.map CheatsheetMetadata.path).trans ?_
      simpa [mkMetadata] using ih.cons f
    · simpa [mkMetadata] using ih.cons f

/-- Every kept or updated record is exactly the metadata recomputed from
the file's name, its current content and the run date. -/
theorem auditRun_active_records (rf : String → String) (td : String) :
    ∀ fs : List String,
      ∀ m ∈ (auditRun rf td fs).1.kept ++ (auditRun rf td fs).1.updated,
        m = mkMetadata m.path (rf m.path) td
  | [] => by simp [auditRun, emptyAudit]
  | f :: fs => by
    have ih := auditRun_active_records rf td fs
    rw [auditRun_cons]
    intro m hm
    rcases auditDelta_shape rf td f with ⟨h1, hd⟩ | ⟨h1, hd | hd⟩ <;> rw [hd] at hm <;>
      simp only [List.nil_append, List.singleton_append, List.mem_append,
        List.mem_cons] at hm
    · exact ih m (List.mem_append.mpr hm)
    · rcases hm with hm | rfl | hm
      · exact ih m (List.mem_append.mpr (Or.inl hm))
      · simp [mkMetadata]
      · exact ih m (List.mem_append.mpr (Or.inr hm))
    · rcases hm with (rfl | hm) | hm
      · simp [mkMetadata]
      · exact ih m (List.mem_append.mpr (Or.inl hm))
      · exact ih m (List.mem_append.mpr (Or.inr hm))

/-- Every archived record is the recomputed metadata with archived status,
and its file was moved into the `_archive` subdirectory. -/
theorem auditRun_archived_records (rf : String → String) (td : String) :
    ∀ fs : List String,
      ∀ m ∈ (auditRun rf td fs).1.archived,
        m = { mkMetadata m.path (rf m.path) td with status := Status.archived } ∧
          FsOp.rename m.path ("_archive/" ++ m.path) ∈ (auditRun rf td fs).2
  | [] => by simp [auditRun, emptyAudit]
  | f :: fs => by
    have ih := auditRun_archived_records rf td fs
    rw [auditRun_cons]
    intro m hm
    rcases auditDelta_shape rf td f with ⟨h1, hd⟩ | ⟨h1, hd | hd⟩ <;> rw [hd] at hm ⊢ <;>
      simp only [List.nil_append, List.singleton_append, List.mem_append,
        List.mem_cons] at hm
    · rcases hm with rfl | hm
      · refine ⟨by simp [mkMetadata], ?_⟩
        simp [mkMetadata]
      · exact ⟨(ih m hm).1, by simp [(ih m hm).2]⟩
    · exact ⟨(ih m hm).1, by simp [(ih m hm).2]⟩
    · exact ⟨(ih m hm).1, by simp [(ih m hm).2]⟩

/-- Every filesystem operation of the run touches one of the processed
files. -/
theorem auditRun_ops_touch (rf : String → String) (td : String) :
    ∀ fs : List String, ∀ op ∈ (auditRun rf td fs).2, op.touches ∈ fs
  | [] => by simp [auditRun, emptyAudit]
  | f :: fs => by
    have ih := auditRun_ops_touch rf td fs
    rw [auditRun_cons]
    intro op hop
    rcases auditDelta_shape rf td f with ⟨h1, hd⟩ | ⟨h1, hd | hd⟩ <;> rw [hd] at hop <;>
      simp only [List.mem_append, List.mem_cons, List.mem_singleton,
        List.not_mem_nil, or_false] at hop
    · rcases hop with (rfl | rfl) | hop
      · exact List.mem_cons_self _ _
      · exact List.mem_cons_self _ _
      · exact List.mem_cons.mpr (Or.inr (ih op hop))
    · rcases hop with (rfl | rfl) | hop
      · exact List.mem_cons_self _ _
      · exact List.mem_cons_self _ _
      · exact List.mem_cons.mpr (Or.inr (ih op hop))
    · rcases hop with rfl | hop
      · exact List.mem_cons_self _ _
      · exact List.mem_cons.mpr (Or.inr (ih op hop))

theorem generateIndexData_eq (result : AuditResult) :
    generateIndexData result = result.kept ++ result.updated := by
  unfold generateIndexData
  rw [show (fun cheatsheet : CheatsheetMetadata =>
      ({ path := cheatsheet.path
         title := cheatsheet.title
         tech := cheatsheet.tech
         version := cheatsheet.version
         status := cheatsheet.status
         lastReviewed := cheatsheet.lastReviewed } : CheatsheetMetadata)) = id from
    funext fun c => rfl]
  exact List.map_id _

/-- Claim C2: after one audit run the generated `index.json` array holds
exactly the records of the files classified as not outdated (the kept and
updated records, whose paths are exactly the processed files the
classifier kept), and no record in it has archived status. -/
theorem generateIndex_exactly_active (listing : List String) (rf : String → String)
    (td : String) :
    generateIndexData (auditCheatsheets listing rf td).1 =
        (auditCheatsheets listing rf td).1.kept ++
          (auditCheatsheets listing rf td).1.updated ∧
      List.Perm
        ((generateIndexData (auditCheatsheets listing rf td).1).map
          CheatsheetMetadata.path)
        ((sortStrings (filterFiles listing)).filter (fun f => !isOutdated f (rf f))) ∧
      ∀ entry ∈ generateIndexData (auditCheatsheets listing rf td).1,
        entry.status ≠ Status.archived := by
  have hrun : auditCheatsheets listing rf td =
      auditRun rf td (sortStrings (filterFiles listing)) := rfl
  refine ⟨generateIndexData_eq _, ?_, ?_⟩
  · rw [generateIndexData_eq, hrun]
    exact auditRun_active_paths_perm rf td (sortStrings (filterFiles listing))
  · intro entry hentry
    rw [generateIndexData_eq, hrun] at hentry
    have := auditRun_active_records rf td (sortStrings (filterFiles listing)) entry hentry
    rw [this]
    simp [mkMetadata]

theorem generateIndex_exactly_active_witness :
    (⟨"a.md", "A", "a", none, Status.active, "2026-01-01"⟩ : CheatsheetMetadata).status ≠
      Status.archived := by
  have h := generateIndex_exactly_active ["a.md"] (fun _ => "h") "2026-01-01"
  exact h.2.2 ⟨"a.md", "A", "a", none, Status.active, "2026-01-01"⟩ (by decide)

/-- Claim C6 counterexample: the metadata record is not a function of only
the file name and its front matter.  Two contents with identical (empty)
front matter but different first headings give different titles, and the
`lastReviewed` field changes with the run date alone. -/
theorem metadata_reads_body_and_date :
    (matterParse "# Alpha").1 = (matterParse "# Beta").1 ∧
      mkMetadata "note.md" "# Alpha" "2026-10-12" ≠
        mkMetadata "note.md" "# Beta" "2026-10-12" ∧
      mkMetadata "note.md" "# Alpha" "2026-10-12" ≠
        mkMetadata "note.md" "# Alpha" "2027-01-01" := by
  decide

/-- Claim C6 (amended): every field of a cheatsheet metadata record is a
function of only the Markdown file's name, its full current content and
the run date, and the records of a run are recomputed from scratch: each
kept or updated record equals the metadata freshly computed from those
inputs, and each archived record equals it with archived status. -/
theorem metadata_recomputed_from_name_content_date (listing : List String)
    (rf : String → String) (td : String) :
    (∀ m ∈ (auditCheatsheets listing rf td).1.kept ++
        (auditCheatsheets listing rf td).1.updated,
      m = mkMetadata m.path (rf m.path) td) ∧
      ∀ m ∈ (auditCheatsheets listing rf td).1.archived,
        m = { mkMetadata m.path (rf m.path) td with status := Status.archived } := by
  have hrun : auditCheatsheets listing rf td =
      auditRun rf td (sortStrings (filterFiles listing)) := rfl
  rw [hrun]
  exact ⟨auditRun_active_records rf td _,
    fun m hm => (auditRun_archived_records rf td _ m hm).1⟩

theorem metadata_recomputed_from_name_content_date_witness :
    (⟨"a.md", "A", "a", none, Status.active, "2026-01-01"⟩ : CheatsheetMetadata) =
      mkMetadata "a.md" "h" "2026-01-01" := by
  have h := metadata_recomputed_from_name_content_date ["a.md"] (fun _ => "h") "2026-01-01"
  exact h.1 ⟨"a.md", "A", "a", none, Status.active, "2026-01-01"⟩ (by decide)

/-- Claim C10: one audit run places every processed file (`.md` name not
starting with `_`) in exactly one of the kept, updated or archived lists;
every archived record's file is renamed into the `_archive` subdirectory;
every filesystem operation of the run touches a file of the filtered
listing; and the filtered listing holds only `.md` names that do not start
with `_` (so `index.json`, the `_archive` directory and `_`-prefixed files
are never read, rewritten or moved). -/
theorem audit_partitions_processed_files (listing : List String)
    (rf : String → String) (td : String) :
    List.Perm
        (((auditCheatsheets listing rf td).1.kept ++
            (auditCheatsheets listing rf td).1.updated ++
            (auditCheatsheets listing rf td).1.archived).map CheatsheetMetadata.path)
        (sortStrings (filterFiles listing)) ∧
      (∀ m ∈ (auditCheatsheets listing rf td).1.archived,
        FsOp.rename m.path ("_archive/" ++ m.path) ∈ (auditCheatsheets listing rf td).2) ∧
      (∀ op ∈ (auditCheatsheets listing rf td).2, op.touches ∈ filterFiles listing) ∧
      ∀ f ∈ filterFiles listing, jsEndsWith f ".md" = true ∧ jsStartsWith f "_" = false := by
  have hrun : auditCheatsheets listing rf td =
      auditRun rf td (sortStrings (filterFiles listing)) := rfl
  rw [hrun]
  refine ⟨auditRun_paths_perm rf td _, ?_, ?_, ?_⟩
  · exact fun m hm => (auditRun_archived_records rf td _ m hm).2
  · intro op hop
    have := auditRun_ops_touch rf td _ op hop
    exact (sortStrings_perm (filterFiles listing)).mem_iff.mp this
  · intro f hf
    have hmem := (List.mem_filter.mp hf).2
    simp only [Bool.and_eq_true, Bool.not_eq_true'] at hmem
    exact hmem

theorem audit_partitions_processed_files_witness :
    FsOp.rename "angularjs.md" ("_archive/" ++ "angularjs.md") ∈
      (auditCheatsheets ["angularjs.md", "_notes.md", "index.json"]
        (fun _ => "x") "2026-01-01").2 := by
  have h := audit_partitions_processed_files ["angularjs.md", "_notes.md", "index.json"]
    (fun _ => "x") "2026-01-01"
  exact h.2.1 ⟨"angularjs.md", "Angularjs", "angularjs", none, Status.archived, "2026-01-01"⟩
    (by decide)

/-- The `TECH_TO_ICON_MAP` object of `audit-icons.ts`. -/
def TECH_TO_ICON_MAP : List (String × String) :=
  [("angular", "angular.svg"), ("awk", "awk.svg"), ("aws", "aws.svg"),
   ("bash", "bash.svg"), ("brew", "brew.svg"), ("css", "css.svg"),
   ("curl", "curl.svg"), ("docker", "docker.svg"), ("emacs", "emacs.svg"),
   ("fish", "fish.svg"), ("git", "git.svg"), ("github", "github.svg"),
   ("go", "go.svg"), ("golang", "go.svg"), ("graphql", "graphql.svg"),
   ("grep", "grep.svg"), ("html", "html.svg"), ("java", "java.svg"),
   ("javascript", "javascript.svg"), ("js", "javascript.svg"),
   ("jq", "jq.svg"), ("kotlin", "kotlin.svg"),
   ("kubernetes", "kubernetes.svg"), ("k8s", "kubernetes.svg"),
   ("linux", "linux.svg"), ("mac", "mac.svg"), ("macos", "mac.svg"),
   ("make", "make.svg"), ("mongodb", "mongodb.svg"), ("mysql", "mysql.svg"),
   ("nextjs", "nextjs.svg"), ("next", "nextjs.svg"), ("nginx", "nginx.svg"),
   ("node", "node.svg"), ("nodejs", "node.svg"), ("npm", "npm.svg"),
   ("nvm", "nvm.svg"), ("php", "php.svg"), ("pnpm", "pnpm.svg"),
   ("postgresql", "postgresql.svg"), ("postgres", "postgresql.svg"),
   ("python", "python.svg"), ("py", "python.svg"), ("react", "react.svg"),
   ("redis", "redis.svg"), ("ruby", "ruby.svg"), ("rb", "ruby.svg"),
   ("rust", "rust.svg"), ("rs", "rust.svg"), ("sed", "sed.svg"),
   ("sql", "sql.svg"), ("sqlite", "sqlite.svg"), ("ssh", "ssh.svg"),
   ("svelte", "svelte.svg"), ("swift", "swift.svg"),
   ("tailwind", "tailwind.svg"), ("terminal", "terminal.svg"),
   ("terraform", "terraform.svg"), ("tmux", "tmux.svg"), ("vim", "vim.svg"),
   ("vue", "vue.svg"), ("yarn", "yarn.svg"), ("zsh", "zsh.svg")]

/-- One `ICON_PATTERNS` entry: the regex as an alternation of literal
branches (`true` marks a `^`-anchored branch, which in the source only the
first branch ever is), the icon filename and the description. -/
structure IconPattern where
  pattern : List (Bool × String)
  icon : String
  description : String

/-- `alternation.test s`: some branch is a prefix (anchored) or a
substring (unanchored) of the tag. -/
def ipTest (alts : List (Bool × String)) (s : String) : Bool :=
  alts.any (fun alt =>
    if alt.1 then alt.2.data.isPrefixOf s.data else subOccurs alt.2.data s.data)

/-- The `ICON_PATTERNS` table of `audit-icons.ts`. -/
def ICON_PATTERNS : List IconPattern :=
  [⟨[(true, "gh-"), (false, "github"), (false, "git-")], "github.svg", "GitHub-related"⟩,
   ⟨[(true, "css-"), (false, "css")], "css.svg", "CSS-related"⟩,
   ⟨[(true, "html-"), (false, "html")], "html.svg", "HTML-related"⟩,
   ⟨[(true, "js-"), (false, "javascript"), (false, "jquery")], "javascript.svg",
     "JavaScript-related"⟩,
   ⟨[(true, "nodejs-"), (false, "node")], "node.svg", "Node.js-related"⟩,
   ⟨[(true, "git-"), (false, "git")], "git.svg", "Git-related"⟩,
   ⟨[(true, "docker-"), (false, "docker")], "docker.svg", "Docker-related"⟩,
   ⟨[(true, "rails-"), (false, "rails")], "ruby.svg", "Rails-related"⟩,
   ⟨[(true, "phoenix-"), (false, "phoenix")], "elixir.svg", "Phoenix-related"⟩,
   ⟨[(true, "react-"), (false, "react")], "react.svg", "React-related"⟩,
   ⟨[(true, "vue-"), (false, "vue")], "vue.svg", "Vue-related"⟩,
   ⟨[(true, "express"), (false, "koa"), (false, "fastify")], "node.svg",
     "Node.js frameworks"⟩,
   ⟨[(true, "mocha"), (false, "jasmine"), (false, "tape"), (false, "qunit"),
     (false, "jest")], "javascript.svg", "Testing frameworks"⟩,
   ⟨[(true, "webpack"), (false, "rollup"), (false, "browserify"),
     (false, "gulp")], "javascript.svg", "Build tools"⟩,
   ⟨[(true, "bootstrap"), (false, "bulma"), (false, "tailwind")], "css.svg",
     "CSS frameworks"⟩,
   ⟨[(true, "mysql"), (false, "postgresql"), (false, "mongodb"),
     (false, "redis"), (false, "sqlite")], "database.svg", "Database-related"⟩,
   ⟨[(true, "bash"), (false, "zsh"), (false, "fish"), (false, "sh-"),
     (false, "terminal")], "terminal.svg", "Terminal-related"⟩,
   ⟨[(true, "vim-"), (false, "vim")], "vim.svg", "Vim-related"⟩,
   ⟨[(true, "emacs"), (false, "spacemacs")], "emacs.svg", "Emacs-related"⟩,
   ⟨[(true, "python"), (false, "py-"), (false, "django"), (false, "flask")],
     "python.svg", "Python-related"⟩,
   ⟨[(true, "php"), (false, "laravel"), (false, "symfony")], "php.svg", "PHP-related"⟩,
   ⟨[(true, "ruby"), (false, "rb-"), (false, "gem")], "ruby.svg", "Ruby-related"⟩,
   ⟨[(true, "go"), (false, "golang")], "go.svg", "Go-related"⟩,
   ⟨[(true, "rust"), (false, "rs-")], "rust.svg", "Rust-related"⟩,
   ⟨[(true, "java"), (false, "kotlin"), (false, "spring")], "java.svg", "Java-related"⟩,
   ⟨[(true, "swift"), (false, "ios")], "swift.svg", "Swift-related"⟩,
   ⟨[(true, "aws"), (false, "awscli")], "aws.svg", "AWS-related"⟩,
   ⟨[(true, "k8s"), (false, "kubernetes")], "kubernetes.svg", "Kubernetes-related"⟩,
   ⟨[(true, "terraform"), (false, "tf-")], "terraform.svg", "Terraform-related"⟩,
   ⟨[(true, "ansible")], "ansible.svg", "Ansible-related"⟩,
   ⟨[(true, "chef")], "chef.svg", "Chef-related"⟩,
   ⟨[(true, "docker")], "docker.svg", "Docker-related"⟩,
   ⟨[(true, "nginx")], "nginx.svg", "Nginx-related"⟩,
   ⟨[(true, "mysql")], "mysql.svg", "MySQL-related"⟩,
   ⟨[(true, "postgresql"), (false, "postgres")], "postgresql.svg",
     "PostgreSQL-related"⟩,
   ⟨[(true, "mongodb"), (false, "mongo")], "mongodb.svg", "MongoDB-related"⟩,
   ⟨[(true, "redis")], "redis.svg", "Redis-related"⟩,
   ⟨[(true, "sql")], "sql.svg", "SQL-related"⟩,
   ⟨[(true, "ssh"), (false, "scp")], "ssh.svg", "SSH-related"⟩,
   ⟨[(true, "curl"), (false, "httpie")], "curl.svg", "HTTP clients"⟩,
   ⟨[(true, "grep"), (false, "sed"), (false, "awk")], "grep.svg", "Text processing"⟩,
   ⟨[(true, "make"), (false, "makefile")], "make.svg", "Make-related"⟩,
   ⟨[(true, "npm"), (false, "yarn"), (false, "pnpm")], "npm.svg", "Package managers"⟩,
   ⟨[(true, "linux"), (false, "ubuntu"), (false, "debian")], "linux.svg",
     "Linux-related"⟩,
   ⟨[(true, "mac"), (false, "macos"), (false, "osx")], "mac.svg", "macOS-related"⟩,
   ⟨[(true, "tmux"), (false, "screen")], "tmux.svg", "Terminal multiplexers"⟩]

/-- The tail of `findIconForCheatsheet` shared by both lookup outcomes:
the pattern loop, then the `<tech>.svg` direct filename match. -/
def findIconRest (tech : String) (existingIcons : List String) : Option String :=
  match ICON_PATTERNS.find?
      (fun pattern => ipTest pattern.pattern tech && existingIcons.contains pattern.icon) with
  | some pattern => some pattern.icon
  | none =>
    let directMatch := tech ++ ".svg"
    if existingIcons.contains directMatch then some directMatch else none

/-- `findIconForCheatsheet` of `audit-icons.ts`. -/
def findIconForCheatsheet (cheatsheet : CheatsheetMetadata)
    (existingIcons : List String) : Option String :=
  match TECH_TO_ICON_MAP.lookup cheatsheet.tech with
  | some directIcon =>
    if existingIcons.contains directIcon then some directIcon
    else findIconRest cheatsheet.tech existingIcons
  | none => findIconRest cheatsheet.tech existingIcons

/-- The icon resolver as the claim states it, as a function of the
technology tag alone: the direct map entry if its icon exists, else the
first pattern whose regex matches the tag and whose icon exists, else
`<tech>.svg` if it exists, else null. -/
def findIconSpec (tech : String) (existingIcons : List String) : Option String :=
  let direct :=
    match TECH_TO_ICON_MAP.lookup tech with
    | some directIcon =>
      if existingIcons.contains directIcon then some directIcon else none
    | none => none
  match direct with
  | some icon => some icon
  | none =>
    match ICON_PATTERNS.find?
        (fun pattern => ipTest pattern.pattern tech && existingIcons.contains pattern.icon) with
    | some pattern => some pattern.icon
    | none =>
      if existingIcons.contains (tech ++ ".svg") then some (tech ++ ".svg") else none

/-- Claim C3: `findIconForCheatsheet` returns a single icon or null; two
records with the same technology tag resolve identically against the same
icon list, and the result follows the fixed precedence of the spec-side
`findIconSpec`. -/
theorem findIcon_deterministic_precedence :
    (∀ (c1 c2 : CheatsheetMetadata) (existingIcons : List String),
      c1.tech = c2.tech →
        findIconForCheatsheet c1 existingIcons = findIconForCheatsheet c2 existingIcons) ∧
      ∀ (c : CheatsheetMetadata) (existingIcons : List String),
        findIconForCheatsheet c existingIcons = findIconSpec c.tech existingIcons := by
  have hspec : ∀ (c : CheatsheetMetadata) (existingIcons : List String),
      findIconForCheatsheet c existingIcons = findIconSpec c.tech existingIcons := by
    intro c icons
    simp only [findIconForCheatsheet, findIconSpec, findIconRest]
    cases TECH_TO_ICON_MAP.lookup c.tech with
    | none => rfl
    | some directIcon =>
      by_cases h : directIcon ∈ icons <;> simp [h]
  refine ⟨?_, hspec⟩
  intro c1 c2 icons htech
  rw [hspec c1 icons, hspec c2 icons, htech]

theorem findIcon_deterministic_precedence_witness :
    (⟨"react.md", "React", "react", none, Status.active, "d"⟩ :
        CheatsheetMetadata).tech =
      (⟨"react@16.md", "React 16", "react", some "16", Status.active, "d"⟩ :
        CheatsheetMetadata).tech ∧
    findIconForCheatsheet
        ⟨"react.md", "React", "react", none, Status.active, "d"⟩ ["react.svg"] =
      findIconForCheatsheet
        ⟨"react@16.md", "React 16", "react", some "16", Status.active, "d"⟩
        ["react.svg"] :=
  ⟨by decide,
   findIcon_deterministic_precedence.1
     ⟨"react.md", "React", "react", none, Status.active, "d"⟩
     ⟨"react@16.md", "React 16", "react", some "16", Status.active, "d"⟩
     ["react.svg"] (by decide)⟩

/-- `IconAnalysis` of `audit-icons.ts`. -/
structure IconAnalysis where
  required : List String
  unused : List String
  missing : List String
  deriving DecidableEq

/-- The body of the main loop of `analyzeIcons`: record the resolved icon
in the required set (insertion order, deduplicated like a JavaScript
`Set`), or record the technology tag as missing. -/
def analyzeStep (existingIcons : List String) (acc : List String × List String)
    (cheatsheet : CheatsheetMetadata) : List String × List String :=
  match findIconForCheatsheet cheatsheet existingIcons with
  | some icon => (if acc.1.contains icon then acc.1 else acc.1 ++ [icon], acc.2)
  | none => (acc.1, acc.2 ++ [cheatsheet.tech])

/-- The required-icons and missing-tags accumulation of `analyzeIcons`. -/
def analyzeLoop (existingIcons : List String)
    (cheatsheets : List CheatsheetMetadata) : List String × List String :=
  cheatsheets.foldl (analyzeStep existingIcons) ([], [])

/-- `analyzeIcons` of `audit-icons.ts` over the active records and the
icon directory listing (each result array is sorted before returning). -/
def analyzeIcons (activeCheatsheets : List CheatsheetMetadata)
    (existingIcons : List String) : IconAnalysis :=
  let loop := analyzeLoop existingIcons activeCheatsheets
  let unusedIcons := existingIcons.filter (fun icon => !loop.1.contains icon)
  ⟨sortStrings loop.1, sortStrings unusedIcons, sortStrings loop.2⟩

/-- `generateMissingIconsList` of `audit-icons.ts`: `none` when nothing is
missing (the file is not written), otherwise the written file content, the
tags suffixed with `.svg` and joined by single newlines. -/
def generateMissingIconsList (missingIcons : List String) : Option String :=
  if missingIcons.isEmpty then none
  else some (String.intercalate "\n" (missingIcons.map (fun tech => tech ++ ".svg")))

theorem analyzeFold_snd (existingIcons : List String) :
    ∀ (cheatsheets : List CheatsheetMetadata) (acc : List String × List String),
      (cheatsheets.foldl (analyzeStep existingIcons) acc).2 =
        acc.2 ++ (cheatsheets.filter
          (fun c => (findIconForCheatsheet c existingIcons).isNone)).map
            CheatsheetMetadata.tech
  | [], acc => by simp
  | c :: cs, acc => by
    rw [List.foldl_cons, analyzeFold_snd existingIcons cs _]
    cases h : findIconForCheatsheet c existingIcons <;>
      simp [analyzeStep, h, List.filter_cons]

/-- Claim C7: when the missing list is empty the `missing-icons.txt` file
is not written; when it is non-empty, the content is exactly the missing
technology tags, each suffixed with `.svg`, joined by single newlines; the
missing list is the sorted list of the tags of the active cheatsheets for
which no icon resolved. -/
theorem missing_icons_one_per_line (activeCheatsheets : List CheatsheetMetadata)
    (existingIcons : List String) :
    ((analyzeIcons activeCheatsheets existingIcons).missing = [] →
      generateMissingIconsList (analyzeIcons activeCheatsheets existingIcons).missing =
        none) ∧
    ((analyzeIcons activeCheatsheets existingIcons).missing ≠ [] →
      generateMissingIconsList (analyzeIcons activeCheatsheets existingIcons).missing =
        some (String.intercalate "\n"
          ((analyzeIcons activeCheatsheets existingIcons).missing.map
            (fun tech => tech ++ ".svg")))) ∧
    SortedStr (analyzeIcons activeCheatsheets existingIcons).missing ∧
    List.Perm (analyzeIcons activeCheatsheets existingIcons).missing
      ((activeCheatsheets.filter
        (fun c => (findIconForCheatsheet c existingIcons).isNone)).map
          CheatsheetMetadata.tech) := by
  refine ⟨?_, ?_, ?_, ?_⟩
  · intro h
    simp [generateMissingIconsList, h]
  · intro h
    simp only [generateMissingIconsList]
    rw [if_neg (by simpa [List.isEmpty_iff] using h)]
  · exact sortStrings_sorted _
  · show List.Perm (sortStrings (analyzeLoop existingIcons activeCheatsheets).2) _
    refine (sortStrings_perm _).trans ?_
    rw [show (analyzeLoop existingIcons activeCheatsheets).2 = _ from
      analyzeFold_snd existingIcons activeCheatsheets ([], [])]
    simp

theorem missing_icons_one_per_line_witness :
    generateMissingIconsList
        (analyzeIcons [⟨"zzz.md", "Z", "zzz", none, Status.active, "d"⟩] []).missing =
      some "zzz.svg" := by
  have h := missing_icons_one_per_line
    [⟨"zzz.md", "Z", "zzz", none, Status.active, "d"⟩] []
  rw [h.2.1 (by decide)]
  decide

/-- A process exit: the status code and whether an error message was
printed to the console before it. -/
structure ScriptExit where
  exitCode : Nat
  errorPrinted : Bool
  deriving DecidableEq

/-- `getActiveCheatsheets` of `audit-icons.ts` over the parsed content of
`index.json` (`none` when the file does not exist): a missing index prints
an error and exits the process with status 1 — modelled as `Except.error`,
which bypasses the caller's catch — otherwise the records with active
status. -/
def getActiveCheatsheets (indexFile : Option (List CheatsheetMetadata)) :
    Except ScriptExit (List CheatsheetMetadata) :=
  match indexFile with
  | none => Except.error ⟨1, true⟩
  | some cheatsheets =>
    Except.ok (cheatsheets.filter (fun c => c.status == Status.active))

/-- The observable outcome of one `audit-cheatsheets.ts` process. -/
structure ScriptRun where
  exitCode : Nat
  errorPrinted : Bool
  indexWritten : Option (List CheatsheetMetadata)
  deriving DecidableEq

/-- `main` of `audit-cheatsheets.ts`: the try block runs the audit and
writes the index; when the filesystem work throws (`body` is an error),
the catch prints the error and calls `process.exit(1)`. -/
def auditScriptMain (body : Except String (AuditResult × List FsOp)) : ScriptRun :=
  match body with
  | Except.ok result => ⟨0, false, some (generateIndexData result.1)⟩
  | Except.error _ => ⟨1, true, none⟩

/-- The observable outcome of one `audit-icons.ts` process. -/
structure IconScriptRun where
  exitCode : Nat
  errorPrinted : Bool
  missingFile : Option String
  deriving DecidableEq

/-- `main` of `audit-icons.ts`: a missing `index.json` exits inside
`getActiveCheatsheets`; any other error thrown inside the try block
(`ioError`) is caught, printed, and the process exits with status 1;
otherwise the analysis runs to completion. -/
def iconsScriptMain (indexFile : Option (List CheatsheetMetadata))
    (existingIcons : List String) (ioError : Option String) : IconScriptRun :=
  match getActiveCheatsheets indexFile with
  | Except.error e => ⟨e.exitCode, e.errorPrinted, none⟩
  | Except.ok activeCheatsheets =>
    match ioError with
    | some _ => ⟨1, true, none⟩
    | none =>
      let analysis := analyzeIcons activeCheatsheets existingIcons
      ⟨0, false, generateMissingIconsList analysis.missing⟩

/-- Claim C8: every error thrown during a run of either maintenance script
leads to the error being printed and the non-zero exit status 1, and the
icon audit also exits with status 1 (after printing) when `index.json`
does not exist. -/
theorem script_failures_exit_nonzero :
    (∀ e : String,
      (auditScriptMain (Except.error e)).exitCode = 1 ∧
        (auditScriptMain (Except.error e)).errorPrinted = true) ∧
    (∀ (indexFile : Option (List CheatsheetMetadata)) (existingIcons : List String)
        (e : String),
      (iconsScriptMain indexFile existingIcons (some e)).exitCode = 1 ∧
        (iconsScriptMain indexFile existingIcons (some e)).errorPrinted = true) ∧
    ∀ (existingIcons : List String) (ioError : Option String),
      (iconsScriptMain none existingIcons ioError).exitCode = 1 ∧
        (iconsScriptMain none existingIcons ioError).errorPrinted = true := by
  refine ⟨fun e => ⟨rfl, rfl⟩, ?_, ?_⟩
  · intro indexFile existingIcons e
    cases indexFile <;> simp [iconsScriptMain, getActiveCheatsheets]
  · intro existingIcons ioError
    simp [iconsScriptMain, getActiveCheatsheets]

/-- A tracked repository record (`UserRepository` of the service module;
the fields are the ones the UI component reads). -/
structure UserRepository where
  id : String
  name : String
  owner : String
  description : Option String
  url : String
  isPrivate : Bool
  defaultBranch : String
  subdirectory : Option String
  lastSyncedAt : Option String
  deriving DecidableEq

/-- The values of the add-repository form. -/
structure AddFormValues where
  name : String
  owner : String
  description : Option String
  url : Option String
  isPrivate : Bool
  defaultBranch : String
  deriving DecidableEq

/-- The values of the edit-repository form. -/
structure EditFormValues where
  name : String
  owner : String
  description : Option String
  url : Option String
  defaultBranch : String
  deriving DecidableEq

/-- A call into the storage service made by a form submission. -/
inductive StorageCall where
  | addRepo (name owner : String) (description url : Option String)
      (isPrivate : Bool) (defaultBranch : String)
  | updateRepo (id name owner : String) (description url : Option String)
      (defaultBranch : String)
  deriving DecidableEq

/-- The observable effects of one add-form submission: the storage call
made (if any), whether the form was dismissed (`pop`), and whether the
saved drafts were cleared. -/
structure AddSubmitEffects where
  storageCall : Option StorageCall
  dismissed : Bool
  draftsCleared : Bool
  deriving DecidableEq

/-- The observable effects of one edit-form submission (the edit form
keeps no drafts). -/
structure EditSubmitEffects where
  storageCall : Option StorageCall
  dismissed : Bool
  deriving DecidableEq

/-- `handleSubmit` of `AddRepositoryForm`: reject when the trimmed name or
owner is empty (no storage call, no dismissal, drafts kept); otherwise
call `Service.addUserRepository` with the raw values, and on success clear
the drafts and dismiss (`serviceOk` is whether the awaited call threw). -/
def addHandleSubmit (values : AddFormValues) (serviceOk : Bool) : AddSubmitEffects :=
  if jsTrim values.name == "" || jsTrim values.owner == "" then
    ⟨none, false, false⟩
  else
    let call := StorageCall.addRepo values.name values.owner values.description
      values.url values.isPrivate values.defaultBranch
    if serviceOk then ⟨some call, true, true⟩ else ⟨some call, false, false⟩

/-- JavaScript `option?.trim() || undefined`. -/
def optTrimOrUndef (o : Option String) : Option String :=
  match o with
  | none => none
  | some s => if jsTrim s == "" then none else some (jsTrim s)

/-- `handleSubmit` of `EditRepositoryForm`: reject when the trimmed name
or owner is empty; otherwise call `Service.updateUserRepository` with the
trimmed values and dismiss on success. -/
def editHandleSubmit (repoId : String) (values : EditFormValues) (serviceOk : Bool) :
    EditSubmitEffects :=
  if jsTrim values.name == "" || jsTrim values.owner == "" then ⟨none, false⟩
  else
    let call := StorageCall.updateRepo repoId (jsTrim values.name) (jsTrim values.owner)
      (optTrimOrUndef values.description) (optTrimOrUndef values.url)
      (jsTrim values.defaultBranch)
    if serviceOk then ⟨some call, true⟩ else ⟨some call, false⟩

theorem jsTrim_empty_of_all_ws {s : String} (h : s.data.all jsWhitespace = true) :
    jsTrim s = "" := by
  have hnil : s.data.dropWhile jsWhitespace = [] :=
    List.dropWhile_eq_nil_iff.mpr (fun x hx => by
      simpa using List.all_eq_true.mp h x hx)
  simp [jsTrim, trimChars, hnil]

/-- Claim C4: a submission of the add form or the edit form whose name or
owner is empty or whitespace-only is rejected: no storage call is made,
the form is not dismissed, and no draft is cleared. -/
theorem form_submit_rejects_blank_required (addValues : AddFormValues)
    (editValues : EditFormValues) (repoId : String) (serviceOk : Bool) :
    (addValues.name.data.all jsWhitespace = true ∨
        addValues.owner.data.all jsWhitespace = true →
      addHandleSubmit addValues serviceOk = ⟨none, false, false⟩) ∧
    (editValues.name.data.all jsWhitespace = true ∨
        editValues.owner.data.all jsWhitespace = true →
      editHandleSubmit repoId editValues serviceOk = ⟨none, false⟩) := by
  constructor
  · intro h
    have hcond : (jsTrim addValues.name == "" || jsTrim addValues.owner == "") = true := by
      rcases h with h | h <;> simp [jsTrim_empty_of_all_ws h]
    simp [addHandleSubmit, hcond]
  · intro h
    have hcond : (jsTrim editValues.name == "" || jsTrim editValues.owner == "") = true := by
      rcases h with h | h <;> simp [jsTrim_empty_of_all_ws h]
    simp [editHandleSubmit, hcond]

theorem form_submit_rejects_blank_required_witness :
    addHandleSubmit ⟨"  ", "octocat", none, none, false, "main"⟩ true =
        ⟨none, false, false⟩ ∧
      editHandleSubmit "r1" ⟨"name", " \t", none, none, "main"⟩ true = ⟨none, false⟩ :=
  ⟨(form_submit_rejects_blank_required ⟨"  ", "octocat", none, none, false, "main"⟩
      ⟨"name", " \t", none, none, "main"⟩ "r1" true).1 (Or.inl (by decide)),
   (form_submit_rejects_blank_required ⟨"  ", "octocat", none, none, false, "main"⟩
      ⟨"name", " \t", none, none, "main"⟩ "r1" true).2 (Or.inr (by decide))⟩

/-- `handleDeleteRepo` of the list view: ask for confirmation; only when
the dialog resolves true call `Service.removeUserRepository` (the first
component records the id passed to it, `none` when no call was made) and
reload the list (`reloaded`); on a failed removal or a declined dialog the
list state stays `current`. -/
def handleDeleteRepo (confirmed : Bool) (removeOk : Bool)
    (current reloaded : List UserRepository) (id : String) :
    Option String × List UserRepository :=
  if confirmed then
    if removeOk then (some id, reloaded) else (some id, current)
  else (none, current)

/-- Claim C5: `Service.removeUserRepository` is invoked only after the
confirmation dialog resolved true, and when it resolves false the
repository list state is unchanged. -/
theorem delete_requires_confirmation :
    (∀ (confirmed removeOk : Bool) (current reloaded : List UserRepository)
        (id : String),
      (handleDeleteRepo confirmed removeOk current reloaded id).1.isSome = true →
        confirmed = true) ∧
    ∀ (removeOk : Bool) (current reloaded : List UserRepository) (id : String),
      handleDeleteRepo false removeOk current reloaded id = (none, current) := by
  constructor
  · intro confirmed removeOk current reloaded id h
    cases confirmed
    · simp [handleDeleteRepo] at h
    · rfl
  · intro removeOk current reloaded id
    rfl

theorem delete_requires_confirmation_witness :
    (handleDeleteRepo true true [] [] "r1").1.isSome = true ∧ true = true :=
  ⟨by decide, delete_requires_confirmation.1 true true [] [] "r1" (by decide)⟩

/-- The initial field values of the edit form. -/
structure EditFormInitial where
  name : String
  owner : String
  description : String
  url : String
  defaultBranch : String
  deriving DecidableEq

/-- JavaScript `repo.description || ""`. -/
def jsOrEmpty (o : Option String) : String :=
  match o with
  | some s => if s == "" then "" else s
  | none => ""

/-- The initial `formData` state of `EditRepositoryForm`, built from the
record being edited. -/
def editInitialFormData (repo : UserRepository) : EditFormInitial :=
  ⟨repo.name, repo.owner, jsOrEmpty repo.description, repo.url, repo.defaultBranch⟩

/-- Claim C9: the edit form's initial values copy the existing record's
name, owner, url and default branch verbatim, and its description is the
record's description or the empty string when the record has none. -/
theorem edit_form_prepopulates_from_record (repo : UserRepository) :
    (editInitialFormData repo).name = repo.name ∧
    (editInitialFormData repo).owner = repo.owner ∧
    (editInitialFormData repo).url = repo.url ∧
    (editInitialFormData repo).defaultBranch = repo.defaultBranch ∧
    (editInitialFormData repo).description = repo.description.getD "" := by
  refine ⟨rfl, rfl, rfl, rfl, ?_⟩
  cases h : repo.description with
  | none => simp [editInitialFormData, jsOrEmpty, h]
  | some s =>
    by_cases hs : s = "" <;> simp [editInitialFormData, jsOrEmpty, h, hs]

end Raycast
